import Mathlib

/-!
# Event-sorter: verification of the event lifecycle core

Shallow embedding of the event lifecycle and extraction/sync pipeline of the
event-sorter repository:

* the Prisma-backed event store and the REST route handlers over it
  (`src/app/api/events/route.ts`, `src/app/api/events/[id]/route.ts`,
  `src/app/api/bin/route.ts`, `src/app/api/bin/[id]/route.ts`),
* the expiration sweeps (`cleanupExpiredEvents`, `deleteExpiredEvents`),
* the Google-calendar sync route and calendar service
  (`src/app/api/calendar/route.ts`, `calendar-service.ts` in its two source
  variants),
* the AI extraction response parsing (`src/services/ai-service.ts`),
* the dashboard time filters (`src/app/page.tsx`).

The database is a list of event records; Prisma's `findUnique` / `update` /
`delete` / `deleteMany` on the primary key become `find?` / conditional `map` /
`filter`.  Timestamps are naturals counting milliseconds (JavaScript
`Date.getTime()`); OAuth expiries are integers counting seconds (the route
works with `Math.floor(Date.now() / 1000)`).
-/

namespace EventSorter

/-- An event record, mirroring the Prisma `Event` model used by the routes:
`id`, `userId`, descriptive fields, `date` (stored as a timestamp at the
midnight of the event's calendar day), optional `time` (`"HH:MM"`), the
Google-calendar link `googleEventId`, and the soft-delete marker `deletedAt`
(null = active). -/
structure Event where
  id : Nat
  userId : Nat
  name : String
  description : Option String
  location : Option String
  date : Nat
  time : Option String
  ticketUrl : Option String
  imageUrl : Option String
  googleEventId : Option String
  deletedAt : Option Nat
deriving Repr, DecidableEq

abbrev Db := List Event

/-- `prisma.event.findUnique({ where: { id } })`. -/
def findById (db : Db) (id : Nat) : Option Event :=
  db.find? (fun e => e.id == id)

/-- The `where` clause of `GET /api/events` (events/route.ts lines 244-252):
the user's events with `deletedAt: null`.  The route additionally orders by
`date` ascending, which only permutes the list and is irrelevant to the
membership properties proved below. -/
def listActive (db : Db) (uid : Nat) : Db :=
  db.filter (fun e => e.userId == uid && e.deletedAt.isNone)

/-- The `where` clause of `GET /api/bin` (bin/route.ts lines 38-46):
the user's events with `deletedAt: { not: null }` (ordering by `deletedAt`
descending again only permutes). -/
def binList (db : Db) (uid : Nat) : Db :=
  db.filter (fun e => e.userId == uid && !(e.deletedAt.isNone))

/-- `GET /api/events/[id]` ([id]/route.ts lines 49-55): `findUnique` with
`id`, `userId` and `deletedAt: null` in the `where` clause. -/
def getActive (db : Db) (uid id : Nat) : Option Event :=
  db.find? (fun e => e.id == id && e.userId == uid && e.deletedAt.isNone)

/-- `prisma.event.update({ where: { id }, data: ... })`: rewrite the record
with the given primary key. -/
def updateById (db : Db) (id : Nat) (f : Event → Event) : Db :=
  db.map (fun e => if e.id == id then f e else e)

/-- `DELETE /api/events/[id]` ([id]/route.ts lines 149-185): find the record,
404 (`none`) when it is absent or owned by someone else, otherwise set
`deletedAt` to the current time.  There is no `deletedAt` check: an
already-binned event passes the guard. -/
def softDelete (db : Db) (uid id now : Nat) : Option Db :=
  match findById db id with
  | none => none
  | some existing =>
    if existing.userId == uid then
      some (updateById db id (fun e => { e with deletedAt := some now }))
    else
      none

/-- `POST /api/bin/[id]` (bin/[id]/route.ts lines 32-77): restore.  404 when
the record is absent, foreign, or not in the bin (`!existing.deletedAt`);
otherwise clear `deletedAt` and return the restored record and new store. -/
def restore (db : Db) (uid id : Nat) : Option (Event × Db) :=
  match findById db id with
  | none => none
  | some existing =>
    if existing.userId == uid && !(existing.deletedAt.isNone) then
      some ({ existing with deletedAt := none },
            updateById db id (fun e => { e with deletedAt := none }))
    else
      none

/-- `DELETE /api/bin/[id]` (bin/[id]/route.ts lines 96-135): permanent
delete.  Same precondition as restore; on success the record is removed from
the store (`prisma.event.delete`). -/
def purgeOne (db : Db) (uid id : Nat) : Option Db :=
  match findById db id with
  | none => none
  | some existing =>
    if existing.userId == uid && !(existing.deletedAt.isNone) then
      some (db.filter (fun e => !(e.id == id)))
    else
      none

/-- `DELETE /api/bin` (bin/route.ts lines 69-94): empty the bin, a
`deleteMany` over the user's soft-deleted events. -/
def purgeAll (db : Db) (uid : Nat) : Db :=
  db.filter (fun e => !(e.userId == uid && !(e.deletedAt.isNone)))

/-- The update payload of `PUT /api/events/[id]` (all fields the route copies
out of the request body). -/
structure UpdateData where
  name : String
  description : Option String
  location : Option String
  date : Nat
  time : Option String
  ticketUrl : Option String
  imageUrl : Option String
  googleEventId : Option String
deriving Repr, DecidableEq

/-- The `data` block of the `prisma.event.update` call in
`PUT /api/events/[id]`: replace the listed fields, everything else
(in particular `deletedAt`) untouched. -/
def applyUpdate (d : UpdateData) (e : Event) : Event :=
  { e with
    name := d.name
    description := d.description
    location := d.location
    date := d.date
    time := d.time
    ticketUrl := d.ticketUrl
    imageUrl := d.imageUrl
    googleEventId := d.googleEventId }

/-- `PUT /api/events/[id]` ([id]/route.ts lines 85-134): find the record, 404
when absent or foreign (no `deletedAt` condition), then replace the listed
fields.  `deletedAt` is not among the written fields. -/
def updateEvent (db : Db) (uid id : Nat) (d : UpdateData) : Option (Event × Db) :=
  match findById db id with
  | none => none
  | some existing =>
    if existing.userId == uid then
      some (applyUpdate d existing, updateById db id (applyUpdate d))
    else
      none

/-! ## Store lemmas

The Prisma `id` column is a unique primary key; `findUnique` is only
meaningful under that uniqueness, which appears below as the hypothesis
`(db.map Event.id).Nodup`. -/

theorem findById_eq_of_nodup {db : Db} {e : Event}
    (hn : (db.map Event.id).Nodup) (he : e ∈ db) :
    findById db e.id = some e := by
  induction db with
  | nil => cases he
  | cons a tl ih =>
    rw [List.map_cons, List.nodup_cons] at hn
    rcases List.mem_cons.mp he with rfl | he'
    · simp [findById, List.find?]
    · have hne : (a.id == e.id) = false := by
        apply beq_false_of_ne
        intro h
        exact hn.1 (h ▸ List.mem_map_of_mem Event.id he')
      simpa [findById, List.find?_cons, hne] using ih hn.2 he'

theorem updateById_map_id (db : Db) (id : Nat) (f : Event → Event)
    (hf : ∀ e, (f e).id = e.id) :
    (updateById db id f).map Event.id = db.map Event.id := by
  unfold updateById
  rw [List.map_map]
  apply List.map_congr_left
  intro a _
  by_cases h : a.id = id <;> simp [h, hf]

theorem mem_updateById_of_mem {db : Db} {e : Event} (id : Nat) (f : Event → Event)
    (he : e ∈ db) :
    (if e.id == id then f e else e) ∈ updateById db id f :=
  List.mem_map_of_mem _ he

theorem exists_of_mem_updateById {db : Db} {x : Event} {id : Nat} {f : Event → Event}
    (hx : x ∈ updateById db id f) :
    ∃ y ∈ db, x = if y.id == id then f y else y := by
  rcases List.mem_map.mp hx with ⟨y, hy, rfl⟩
  exact ⟨y, hy, rfl⟩

/-! ## C1: soft-delete / restore round trip -/

/-- C1: for every event owned by a user, soft-delete followed by restore is a
round trip on visibility: after `softDelete` no event with the deleted id is
in the active list and one is in the bin list; `restore` then returns the
original record with all field values unchanged, after which the original
event is in the active list again and no event with its id is in the bin
list. -/
theorem softDelete_restore_roundtrip
    (db : Db) (uid now : Nat) (e : Event)
    (hn : (db.map Event.id).Nodup)
    (he : e ∈ db) (hu : e.userId = uid) (ha : e.deletedAt = none) :
    ∃ db₁,
      softDelete db uid e.id now = some db₁ ∧
      (∀ x ∈ listActive db₁ uid, x.id ≠ e.id) ∧
      (∃ y ∈ binList db₁ uid, y.id = e.id) ∧
      ∃ db₂,
        restore db₁ uid e.id = some (e, db₂) ∧
        e ∈ listActive db₂ uid ∧
        (∀ x ∈ binList db₂ uid, x.id ≠ e.id) := by
  subst hu
  have hfind := findById_eq_of_nodup hn he
  refine ⟨updateById db e.id (fun x => { x with deletedAt := some now }), ?_, ?_, ?_, ?_⟩
  · simp [softDelete, hfind]
  · intro x hx
    obtain ⟨hxmem, hxp⟩ := List.mem_filter.mp hx
    obtain ⟨y, hy, hxy⟩ := exists_of_mem_updateById hxmem
    by_cases hid : y.id = e.id
    · exfalso
      rw [hxy] at hxp
      simp [hid] at hxp
    · intro hxe
      rw [hxy] at hxe
      simp [hid] at hxe
  · refine ⟨{ e with deletedAt := some now }, ?_, rfl⟩
    apply List.mem_filter.mpr
    refine ⟨?_, by simp⟩
    simpa using mem_updateById_of_mem e.id (fun x => { x with deletedAt := some now }) he
  · have hn₁ : ((updateById db e.id (fun x => { x with deletedAt := some now })).map
        Event.id).Nodup := by
      rw [updateById_map_id db e.id (fun x => { x with deletedAt := some now })
        (fun _ => rfl)]
      exact hn
    have hmem₁ : ({ e with deletedAt := some now } : Event) ∈
        updateById db e.id (fun x => { x with deletedAt := some now }) := by
      simpa using mem_updateById_of_mem e.id (fun x => { x with deletedAt := some now }) he
    have hfind₁ : findById (updateById db e.id (fun x => { x with deletedAt := some now }))
        e.id = some { e with deletedAt := some now } := by
      have := findById_eq_of_nodup hn₁ hmem₁
      simpa using this
    have heta : ({ e with deletedAt := none } : Event) = e := by
      rw [← ha]
    refine ⟨updateById (updateById db e.id (fun x => { x with deletedAt := some now }))
        e.id (fun x => { x with deletedAt := none }), ?_, ?_, ?_⟩
    · simp [restore, hfind₁, heta]
    · apply List.mem_filter.mpr
      refine ⟨?_, by simp [ha]⟩
      have := mem_updateById_of_mem
        e.id (fun x => { x with deletedAt := none }) hmem₁
      simpa [heta] using this
    · intro x hx
      obtain ⟨hxmem, hxp⟩ := List.mem_filter.mp hx
      obtain ⟨y, hy, hxy⟩ := exists_of_mem_updateById hxmem
      by_cases hid : y.id = e.id
      · exfalso
        rw [hxy] at hxp
        simp [hid] at hxp
      · intro hxe
        rw [hxy] at hxe
        simp [hid] at hxe

/-- Witness for C1 at a concrete store. -/
theorem softDelete_restore_roundtrip_witness :
    ∃ db₁,
      softDelete [⟨1, 7, "Gig", none, none, 0, none, none, none, none, none⟩] 7 1 50
        = some db₁ ∧
      (∀ x ∈ listActive db₁ 7, x.id ≠ 1) ∧
      (∃ y ∈ binList db₁ 7, y.id = 1) ∧
      ∃ db₂,
        restore db₁ 7 1
          = some (⟨1, 7, "Gig", none, none, 0, none, none, none, none, none⟩, db₂) ∧
        (⟨1, 7, "Gig", none, none, 0, none, none, none, none, none⟩ : Event)
          ∈ listActive db₂ 7 ∧
        (∀ x ∈ binList db₂ 7, x.id ≠ 1) :=
  softDelete_restore_roundtrip
    [⟨1, 7, "Gig", none, none, 0, none, none, none, none, none⟩] 7 50
    ⟨1, 7, "Gig", none, none, 0, none, none, none, none, none⟩
    (by simp) (by simp) rfl rfl

/-! ## Expiration sweeps

Three sweep functions appear in the source:
* `cleanupExpiredEvents` (events/route.ts lines 153-214, the commented
  variant wired to `GET /api/events`): scans the user's events with
  `deletedAt: null` and `date <= now`;
* the uncommented variant of the same function (events/route.ts lines
  10-60), here `cleanupExpiredEventsV0`: identical but without the
  `deletedAt` condition;
* `deleteExpiredEvents` (events/route.ts lines 327-386, the manual
  `/api/events/cleanup` endpoint): scans all events with `date <= now`.

All three share the expiry computation of lines 177-199 / 348-366. -/

/-- JavaScript `s.split(sep)` over the characters of a string, written as a
structural recursion so that concrete inputs evaluate. -/
def splitFields (sep : Char) : List Char → List (List Char)
  | [] => [[]]
  | c :: cs =>
    match splitFields sep cs with
    | [] => [[]]
    | f :: rest => if c = sep then [] :: f :: rest else (c :: f) :: rest

/-- JavaScript `Number(s)` on a split fragment: the denoted natural when
the fragment is all digits, otherwise nothing (NaN). -/
def charsToNat? (l : List Char) : Option Nat :=
  if l ≠ [] ∧ ∀ c ∈ l, c.isDigit then
    some (l.foldl (fun n c => n * 10 + (c.toNat - 48)) 0)
  else none

/-- The effective end-of-event instant in milliseconds: start from the
event's stored `date` (midnight of its calendar day); with a `time`,
`setHours(hours, minutes, 0, 0)` after `time.split(":").map(Number)`;
without one, `setHours(23, 59, 0, 0)` (end of day).  The app always stores
well-formed `"HH:MM"` strings; degenerate shapes fall back to the bare
date. -/
def eventDateTime (e : Event) : Nat :=
  match e.time with
  | some t =>
    match splitFields ':' t.data with
    | h :: m :: _ =>
      e.date + ((charsToNat? h).getD 0 * 60 + (charsToNat? m).getD 0) * 60000
    | _ => e.date
  | none => e.date + (23 * 60 + 59) * 60000

/-- Expiry instant: effective end plus the fixed one-hour grace period
(`eventDateTime.getTime() + 60 * 60 * 1000`). -/
def expiryTime (e : Event) : Nat :=
  eventDateTime e + 3600000

/-- `cleanupExpiredEvents(userId)` of events/route.ts lines 153-214: scan the
user's non-deleted events with `date <= now`, collect the ids whose expiry
has passed (`now >= expiryTime`), and `deleteMany` them. -/
def cleanupExpiredEvents (db : Db) (uid now : Nat) : Db :=
  let events := db.filter
    (fun e => e.userId == uid && e.deletedAt.isNone && decide (e.date ≤ now))
  let expiredEventIds := (events.filter (fun e => decide (expiryTime e ≤ now))).map Event.id
  db.filter (fun e => !(expiredEventIds.contains e.id))

/-- The uncommented `cleanupExpiredEvents` variant of events/route.ts lines
10-60: same scan without the `deletedAt` condition. -/
def cleanupExpiredEventsV0 (db : Db) (uid now : Nat) : Db :=
  let events := db.filter (fun e => e.userId == uid && decide (e.date ≤ now))
  let expiredEventIds := (events.filter (fun e => decide (expiryTime e ≤ now))).map Event.id
  db.filter (fun e => !(expiredEventIds.contains e.id))

/-- `deleteExpiredEvents()` of events/route.ts lines 327-386: the manual
cleanup endpoint; scans all events with `date <= now` (no user or
`deletedAt` condition) and returns the ids it deleted together with the
remaining store. -/
def deleteExpiredEvents (db : Db) (now : Nat) : List Nat × Db :=
  let events := db.filter (fun e => decide (e.date ≤ now))
  let expiredEventIds := (events.filter (fun e => decide (expiryTime e ≤ now))).map Event.id
  (expiredEventIds, db.filter (fun e => !(expiredEventIds.contains e.id)))

theorem eq_of_mem_of_id_eq {db : Db} {x y : Event}
    (hn : (db.map Event.id).Nodup) (hx : x ∈ db) (hy : y ∈ db)
    (h : x.id = y.id) : x = y := by
  have h1 := findById_eq_of_nodup hn hx
  have h2 := findById_eq_of_nodup hn hy
  rw [h, h2] at h1
  exact (Option.some_inj.mp h1).symm

/-! ## C2: the sweep purges exactly the expired events -/

/-- C2: for every event with start date ≤ now, the sweep
(`deleteExpiredEvents`) purges it if and only if now has reached the
effective end instant (date+time when a time is present, else 23:59 of the
event's day) plus the one-hour grace period; unexpired events are left in
the store untouched. -/
theorem sweep_purges_iff_expired
    (db : Db) (now : Nat) (e : Event)
    (hn : (db.map Event.id).Nodup) (he : e ∈ db) (hd : e.date ≤ now) :
    e ∉ (deleteExpiredEvents db now).2 ↔ expiryTime e ≤ now := by
  have hids : e.id ∈ (db.filter
      (fun x => decide (expiryTime x ≤ now) && decide (x.date ≤ now))).map Event.id
      ↔ expiryTime e ≤ now := by
    constructor
    · intro h
      rcases List.mem_map.mp h with ⟨y, hy, hye⟩
      rcases List.mem_filter.mp hy with ⟨hymem, hp⟩
      have heq : y = e := eq_of_mem_of_id_eq hn hymem he hye
      subst heq
      simpa using (Bool.and_eq_true_iff.mp hp).1
    · intro h
      exact List.mem_map.mpr ⟨e, List.mem_filter.mpr ⟨he, by simp [hd, h]⟩, rfl⟩
  have hres : (deleteExpiredEvents db now).2
      = db.filter (fun x => !((((db.filter (fun y => decide (y.date ≤ now))).filter
          (fun y => decide (expiryTime y ≤ now))).map Event.id).contains x.id)) := rfl
  rw [hres]
  constructor
  · intro hne
    by_contra hexp
    apply hne
    refine List.mem_filter.mpr ⟨he, ?_⟩
    simp [-List.mem_map]
    exact fun h => hexp (hids.mp h)
  · intro hexp hmem
    have h2 := (List.mem_filter.mp hmem).2
    simp [-List.mem_map] at h2
    exact h2 (hids.mpr hexp)

/-- Witness for C2: an all-day event dated at day start 0 is purged exactly
once the sweep runs at `23:59 + 1h` past that midnight. -/
theorem sweep_purges_iff_expired_witness :
    (⟨2, 7, "Yesterday", none, none, 0, none, none, none, none, none⟩ : Event)
      ∉ (deleteExpiredEvents
          [⟨2, 7, "Yesterday", none, none, 0, none, none, none, none, none⟩] 89940000).2
    ↔ expiryTime ⟨2, 7, "Yesterday", none, none, 0, none, none, none, none, none⟩
        ≤ 89940000 :=
  sweep_purges_iff_expired
    [⟨2, 7, "Yesterday", none, none, 0, none, none, none, none, none⟩] 89940000
    ⟨2, 7, "Yesterday", none, none, 0, none, none, none, none, none⟩
    (by simp) (by simp) (Nat.zero_le _)

/-! ## C3: is the purge independent of soft-delete state? -/

/-- C3 counterexample: an expired event sitting in the bin (`deletedAt`
set) survives the per-user sweep `cleanupExpiredEvents` — its scan has
`deletedAt: null` in the `where` clause, so binned events are never
collected, contradicting the claim that the sweep hard-deletes every expired
event whether or not `deletedAt` is set. -/
theorem cleanup_skips_binned_event :
    (⟨3, 7, "Binned", none, none, 0, none, none, none, none, some 5⟩ : Event)
      ∈ cleanupExpiredEvents
          [⟨3, 7, "Binned", none, none, 0, none, none, none, none, some 5⟩] 7 90000000 ∧
    expiryTime ⟨3, 7, "Binned", none, none, 0, none, none, none, none, some 5⟩
      ≤ 90000000 ∧
    (⟨3, 7, "Binned", none, none, 0, none, none, none, none, some 5⟩ : Event).deletedAt
      ≠ none := by
  refine ⟨?_, by decide, by decide⟩
  decide

/-- C3 amended: the manual sweep `deleteExpiredEvents` and the uncommented
variant `cleanupExpiredEventsV0` purge an expired event regardless of its
soft-delete state, but the per-user sweep `cleanupExpiredEvents` wired to the
active-list fetch scans only events with `deletedAt` null, so an expired
event in the bin is left in the store by it. -/
theorem sweep_purge_deletedAt_across_variants
    (db : Db) (uid now : Nat) (e : Event)
    (hn : (db.map Event.id).Nodup) (he : e ∈ db)
    (hd : e.date ≤ now) (hexp : expiryTime e ≤ now) :
    e ∉ (deleteExpiredEvents db now).2 ∧
    (e.userId = uid → e ∉ cleanupExpiredEventsV0 db uid now) ∧
    (e.userId = uid → e.deletedAt ≠ none → e ∈ cleanupExpiredEvents db uid now) := by
  refine ⟨?_, ?_, ?_⟩
  · intro hmem
    have hres : (deleteExpiredEvents db now).2
        = db.filter (fun x => !((((db.filter (fun y => decide (y.date ≤ now))).filter
            (fun y => decide (expiryTime y ≤ now))).map Event.id).contains x.id)) := rfl
    rw [hres] at hmem
    have h2 := (List.mem_filter.mp hmem).2
    simp [-List.mem_map] at h2
    exact h2 (List.mem_map.mpr ⟨e, List.mem_filter.mpr ⟨he, by simp [hd, hexp]⟩, rfl⟩)
  · intro hu hmem
    have hres : cleanupExpiredEventsV0 db uid now
        = db.filter (fun x =>
            !((((db.filter (fun y => y.userId == uid && decide (y.date ≤ now))).filter
            (fun y => decide (expiryTime y ≤ now))).map Event.id).contains x.id)) := rfl
    rw [hres] at hmem
    have h2 := (List.mem_filter.mp hmem).2
    simp [-List.mem_map] at h2
    exact h2 (List.mem_map.mpr ⟨e, List.mem_filter.mpr ⟨he, by simp [hu, hd, hexp]⟩, rfl⟩)
  · intro hu hdel
    have hres : cleanupExpiredEvents db uid now
        = db.filter (fun x =>
            !((((db.filter (fun y => y.userId == uid && y.deletedAt.isNone
                && decide (y.date ≤ now))).filter
            (fun y => decide (expiryTime y ≤ now))).map Event.id).contains x.id)) := rfl
    rw [hres]
    refine List.mem_filter.mpr ⟨he, ?_⟩
    simp [-List.mem_map]
    intro h
    rcases List.mem_map.mp h with ⟨y, hy, hye⟩
    rcases List.mem_filter.mp hy with ⟨hymem, hp⟩
    simp at hp
    have heq : y = e := eq_of_mem_of_id_eq hn hymem he hye
    have hnone : y.deletedAt = none := by tauto
    exact hdel (heq ▸ hnone)

/-- Witness for the amended C3 at a concrete binned expired event. -/
theorem sweep_purge_deletedAt_across_variants_witness :
    (⟨3, 7, "Binned", none, none, 0, none, none, none, none, some 5⟩ : Event)
      ∉ (deleteExpiredEvents
          [⟨3, 7, "Binned", none, none, 0, none, none, none, none, some 5⟩] 90000000).2 ∧
    ((⟨3, 7, "Binned", none, none, 0, none, none, none, none, some 5⟩ : Event).userId = 7 →
      (⟨3, 7, "Binned", none, none, 0, none, none, none, none, some 5⟩ : Event)
        ∉ cleanupExpiredEventsV0
            [⟨3, 7, "Binned", none, none, 0, none, none, none, none, some 5⟩] 7 90000000) ∧
    ((⟨3, 7, "Binned", none, none, 0, none, none, none, none, some 5⟩ : Event).userId = 7 →
      (⟨3, 7, "Binned", none, none, 0, none, none, none, none, some 5⟩ : Event).deletedAt
          ≠ none →
      (⟨3, 7, "Binned", none, none, 0, none, none, none, none, some 5⟩ : Event)
        ∈ cleanupExpiredEvents
            [⟨3, 7, "Binned", none, none, 0, none, none, none, none, some 5⟩] 7 90000000) :=
  sweep_purge_deletedAt_across_variants
    [⟨3, 7, "Binned", none, none, 0, none, none, none, none, some 5⟩] 7 90000000
    ⟨3, 7, "Binned", none, none, 0, none, none, none, none, some 5⟩
    (by simp) (by simp) (Nat.zero_le _) (by decide)

/-! ## C8: soft-deleting twice -/

/-- C8 counterexample: calling `softDelete` on an already soft-deleted event
does not return `NotFound` — the delete path checks only existence and
ownership, so the call succeeds again. -/
theorem softDelete_twice_not_notfound :
    softDelete [⟨4, 7, "Twice", none, none, 0, none, none, none, none, some 11⟩] 7 4 22
      ≠ none ∧
    (⟨4, 7, "Twice", none, none, 0, none, none, none, none, some 11⟩ : Event).deletedAt
      ≠ none := by
  decide

/-- C8 amended: the delete path has no active-event check, so a second
`softDelete` by the owner on an already-binned event succeeds again,
overwriting `deletedAt` with the new deletion time (rather than failing with
`NotFound`); `softDelete` returns `NotFound` exactly when no event with the
id exists or it belongs to another user. -/
theorem softDelete_on_binned_succeeds
    (db : Db) (uid now : Nat) (e : Event)
    (hn : (db.map Event.id).Nodup) (he : e ∈ db) (hu : e.userId = uid)
    (_hdel : e.deletedAt ≠ none) :
    (∃ db', softDelete db uid e.id now = some db' ∧
      ({ e with deletedAt := some now } : Event) ∈ db') ∧
    (∀ id, softDelete db uid id now = none ↔
      ¬ ∃ x ∈ db, x.id = id ∧ x.userId = uid) := by
  subst hu
  have hfind := findById_eq_of_nodup hn he
  constructor
  · refine ⟨updateById db e.id (fun x => { x with deletedAt := some now }), ?_, ?_⟩
    · simp [softDelete, hfind]
    · simpa using mem_updateById_of_mem e.id
        (fun x => { x with deletedAt := some now }) he
  · intro id
    cases hf : findById db id with
    | none =>
      simp only [softDelete, hf]
      constructor
      · rintro - ⟨x, hx, rfl, -⟩
        rw [findById_eq_of_nodup hn hx] at hf
        cases hf
      · intro _
        trivial
    | some x =>
      have hxmem : x ∈ db := List.mem_of_find?_eq_some hf
      have hxid : x.id = id := by
        have := List.find?_some hf
        simpa using this
      by_cases hg : (x.userId == e.userId) = true
      · simp only [softDelete, hf, hg, if_true]
        simp only [beq_iff_eq] at hg
        constructor
        · intro h
          cases h
        · intro h
          exact absurd ⟨x, hxmem, hxid, hg⟩ h
      · simp only [softDelete, hf, hg, if_false]
        simp only [beq_iff_eq] at hg
        constructor
        · rintro - ⟨y, hy, hyid, hyu⟩
          have : y = x := eq_of_mem_of_id_eq hn hy hxmem (hyid.trans hxid.symm)
          subst this
          exact hg hyu
        · intro _
          trivial

/-- Witness for the amended C8. -/
theorem softDelete_on_binned_succeeds_witness :
    (∃ db', softDelete [⟨4, 7, "Twice", none, none, 0, none, none, none, none, some 11⟩]
        7 4 22 = some db' ∧
      ({ (⟨4, 7, "Twice", none, none, 0, none, none, none, none, some 11⟩ : Event) with
          deletedAt := some 22 } : Event) ∈ db') ∧
    (∀ id, softDelete [⟨4, 7, "Twice", none, none, 0, none, none, none, none, some 11⟩]
        7 id 22 = none ↔
      ¬ ∃ x ∈ [(⟨4, 7, "Twice", none, none, 0, none, none, none, none, some 11⟩ : Event)],
        x.id = id ∧ x.userId = 7) :=
  softDelete_on_binned_succeeds
    [⟨4, 7, "Twice", none, none, 0, none, none, none, none, some 11⟩] 7 22
    ⟨4, 7, "Twice", none, none, 0, none, none, none, none, some 11⟩
    (by simp) (by simp) rfl (by decide)

/-! ## C9: bin operations -/

/-- C9: `restore` and `purgeOne` succeed exactly on events that exist, are
owned by the caller and have `deletedAt` set (404 `NotFoundInBin`
otherwise); `restore` clears `deletedAt`; `purgeOne` removes the record, and
after `purgeOne` (or `purgeAll`) the event is unreachable: `getActive` and
the bin list no longer return it and a subsequent `restore` yields
`NotFound`. -/
theorem bin_restore_purge_contract
    (db : Db) (uid : Nat) (e : Event)
    (hn : (db.map Event.id).Nodup)
    (he : e ∈ db) (hu : e.userId = uid) (hdel : e.deletedAt ≠ none) :
    (∀ id, (restore db uid id = none ↔ purgeOne db uid id = none) ∧
      (restore db uid id = none ↔
        ¬ ∃ x ∈ db, x.id = id ∧ x.userId = uid ∧ x.deletedAt ≠ none)) ∧
    (∃ db₁, restore db uid e.id = some ({ e with deletedAt := none }, db₁) ∧
      ({ e with deletedAt := none } : Event) ∈ db₁) ∧
    (∃ db₂, purgeOne db uid e.id = some db₂ ∧
      getActive db₂ uid e.id = none ∧
      (∀ x ∈ binList db₂ uid, x.id ≠ e.id) ∧
      restore db₂ uid e.id = none) ∧
    (getActive (purgeAll db uid) uid e.id = none ∧
      (∀ x ∈ binList (purgeAll db uid) uid, x.id ≠ e.id) ∧
      restore (purgeAll db uid) uid e.id = none) := by
  subst hu
  have hfind := findById_eq_of_nodup hn he
  have hguard : (!e.deletedAt.isNone) = true := by
    simp [Option.isNone_eq_false_iff, Option.isSome_iff_ne_none, hdel]
  refine ⟨?_, ?_, ?_, ?_⟩
  · intro id
    constructor
    · cases hf : findById db id with
      | none => simp [restore, purgeOne, hf]
      | some x =>
        by_cases hg : (x.userId == e.userId && !x.deletedAt.isNone) = true <;>
          simp [restore, purgeOne, hf, hg]
    · cases hf : findById db id with
      | none =>
        simp only [restore, hf]
        constructor
        · rintro - ⟨x, hx, rfl, -, -⟩
          rw [findById_eq_of_nodup hn hx] at hf
          cases hf
        · intro _
          trivial
      | some x =>
        have hxmem : x ∈ db := List.mem_of_find?_eq_some hf
        have hxid : x.id = id := by
          have := List.find?_some hf
          simpa using this
        by_cases hg : (x.userId == e.userId && !x.deletedAt.isNone) = true
        · simp only [restore, hf, hg, if_true]
          simp only [Bool.and_eq_true, beq_iff_eq, Bool.not_eq_true',
            Option.isNone_eq_false_iff, Option.isSome_iff_ne_none] at hg
          constructor
          · intro h
            cases h
          · intro h
            exact absurd ⟨x, hxmem, hxid, hg.1, hg.2⟩ h
        · simp only [restore, hf, hg, if_false]
          simp only [Bool.and_eq_true, beq_iff_eq, Bool.not_eq_true',
            Option.isNone_eq_false_iff, Option.isSome_iff_ne_none] at hg
          push_neg at hg
          constructor
          · rintro - ⟨y, hy, hyid, hyu, hyd⟩
            have : y = x := eq_of_mem_of_id_eq hn hy hxmem (hyid.trans hxid.symm)
            subst this
            exact hyd (hg hyu)
          · intro _
            rfl
  · refine ⟨updateById db e.id (fun x => { x with deletedAt := none }), ?_, ?_⟩
    · simp [restore, hfind, hguard]
    · simpa using mem_updateById_of_mem e.id (fun x => { x with deletedAt := none }) he
  · refine ⟨db.filter (fun x => !(x.id == e.id)), ?_, ?_, ?_, ?_⟩
    · simp [purgeOne, hfind, hguard]
    · apply List.find?_eq_none.mpr
      intro x hx
      have hxne := (List.mem_filter.mp hx).2
      simp only [Bool.not_eq_true', beq_eq_false_iff_ne, ne_eq] at hxne
      simp [hxne]
    · intro x hx
      have hxne := (List.mem_filter.mp (List.mem_filter.mp hx).1).2
      simpa using hxne
    · have : findById (db.filter (fun x => !(x.id == e.id))) e.id = none := by
        apply List.find?_eq_none.mpr
        intro x hx
        have hxne := (List.mem_filter.mp hx).2
        simpa using hxne
      simp [restore, this]
  · have hgone : ∀ x ∈ purgeAll db e.userId, x.id ≠ e.id := by
      intro x hx hxe
      obtain ⟨hxdb, hxkeep⟩ := List.mem_filter.mp hx
      have : x = e := eq_of_mem_of_id_eq hn hxdb he hxe
      subst this
      simp [hdel] at hxkeep
    refine ⟨?_, ?_, ?_⟩
    · apply List.find?_eq_none.mpr
      intro x hx
      have := hgone x hx
      simp [this]
    · intro x hx
      exact hgone x (List.mem_filter.mp hx).1
    · have : findById (purgeAll db e.userId) e.id = none := by
        apply List.find?_eq_none.mpr
        intro x hx
        have := hgone x hx
        simpa using this
      simp [restore, this]

/-- Witness for C9 at a one-element store holding a binned event. -/
theorem bin_restore_purge_contract_witness :
    (∀ id, (restore [⟨5, 7, "Bin", none, none, 0, none, none, none, none, some 9⟩] 7 id
        = none ↔
      purgeOne [⟨5, 7, "Bin", none, none, 0, none, none, none, none, some 9⟩] 7 id
        = none) ∧
      (restore [⟨5, 7, "Bin", none, none, 0, none, none, none, none, some 9⟩] 7 id
          = none ↔
        ¬ ∃ x ∈ [(⟨5, 7, "Bin", none, none, 0, none, none, none, none, some 9⟩ : Event)],
          x.id = id ∧ x.userId = 7 ∧ x.deletedAt ≠ none)) ∧
    (∃ db₁, restore [⟨5, 7, "Bin", none, none, 0, none, none, none, none, some 9⟩] 7 5
        = some ({ (⟨5, 7, "Bin", none, none, 0, none, none, none, none, some 9⟩ : Event)
            with deletedAt := none }, db₁) ∧
      ({ (⟨5, 7, "Bin", none, none, 0, none, none, none, none, some 9⟩ : Event) with
          deletedAt := none } : Event) ∈ db₁) ∧
    (∃ db₂, purgeOne [⟨5, 7, "Bin", none, none, 0, none, none, none, none, some 9⟩] 7 5
        = some db₂ ∧
      getActive db₂ 7 5 = none ∧
      (∀ x ∈ binList db₂ 7, x.id ≠ 5) ∧
      restore db₂ 7 5 = none) ∧
    (getActive (purgeAll [⟨5, 7, "Bin", none, none, 0, none, none, none, none, some 9⟩] 7)
        7 5 = none ∧
      (∀ x ∈ binList
          (purgeAll [⟨5, 7, "Bin", none, none, 0, none, none, none, none, some 9⟩] 7) 7,
        x.id ≠ 5) ∧
      restore (purgeAll [⟨5, 7, "Bin", none, none, 0, none, none, none, none, some 9⟩] 7)
        7 5 = none) :=
  bin_restore_purge_contract
    [⟨5, 7, "Bin", none, none, 0, none, none, none, none, some 9⟩] 7
    ⟨5, 7, "Bin", none, none, 0, none, none, none, none, some 9⟩
    (by simp) (by simp) rfl (by decide)

/-! ## C10: update ignores soft-delete state -/

/-- C10: `PUT` verifies only existence and ownership — it succeeds on an
event whether or not `deletedAt` is set (a binned event can be edited),
fails with `NotFound` exactly when the event is absent or foreign, and the
update never touches `deletedAt`. -/
theorem update_ignores_deletedAt
    (db : Db) (uid : Nat) (d : UpdateData) (e : Event)
    (hn : (db.map Event.id).Nodup)
    (he : e ∈ db) (hu : e.userId = uid) :
    (∃ e' db', updateEvent db uid e.id d = some (e', db') ∧
      e'.deletedAt = e.deletedAt ∧ e' ∈ db' ∧
      e'.name = d.name ∧ e'.description = d.description ∧ e'.location = d.location ∧
      e'.date = d.date ∧ e'.time = d.time ∧ e'.ticketUrl = d.ticketUrl ∧
      e'.imageUrl = d.imageUrl ∧ e'.googleEventId = d.googleEventId) ∧
    (∀ id, updateEvent db uid id d = none ↔
      ¬ ∃ x ∈ db, x.id = id ∧ x.userId = uid) := by
  subst hu
  have hfind := findById_eq_of_nodup hn he
  constructor
  · have happ : updateEvent db e.userId e.id d
        = some (applyUpdate d e, updateById db e.id (applyUpdate d)) := by
      simp [updateEvent, hfind]
    refine ⟨_, _, happ, rfl, ?_, rfl, rfl, rfl, rfl, rfl, rfl, rfl, rfl⟩
    simpa using mem_updateById_of_mem e.id (applyUpdate d) he
  · intro id
    cases hf : findById db id with
    | none =>
      simp only [updateEvent, hf]
      constructor
      · rintro - ⟨x, hx, rfl, -⟩
        rw [findById_eq_of_nodup hn hx] at hf
        cases hf
      · intro _
        trivial
    | some x =>
      have hxmem : x ∈ db := List.mem_of_find?_eq_some hf
      have hxid : x.id = id := by
        have := List.find?_some hf
        simpa using this
      by_cases hg : (x.userId == e.userId) = true
      · simp only [updateEvent, hf, hg, if_true]
        simp only [beq_iff_eq] at hg
        constructor
        · intro h
          cases h
        · intro h
          exact absurd ⟨x, hxmem, hxid, hg⟩ h
      · simp only [updateEvent, hf, hg, if_false]
        simp only [beq_iff_eq] at hg
        constructor
        · rintro - ⟨y, hy, hyid, hyu⟩
          have : y = x := eq_of_mem_of_id_eq hn hy hxmem (hyid.trans hxid.symm)
          subst this
          exact hg hyu
        · intro _
          rfl

/-- Witness for C10: editing an event that sits in the bin succeeds. -/
theorem update_ignores_deletedAt_witness :
    (∃ e' db', updateEvent [⟨6, 7, "Edit", none, none, 0, none, none, none, none, some 3⟩]
        7 6 ⟨"New", some "d", some "l", 88, some "10:00", none, none, some "g"⟩
        = some (e', db') ∧
      e'.deletedAt = (⟨6, 7, "Edit", none, none, 0, none, none, none, none,
          some 3⟩ : Event).deletedAt ∧ e' ∈ db' ∧
      e'.name = "New" ∧ e'.description = some "d" ∧ e'.location = some "l" ∧
      e'.date = 88 ∧ e'.time = some "10:00" ∧ e'.ticketUrl = none ∧
      e'.imageUrl = none ∧ e'.googleEventId = some "g") ∧
    (∀ id, updateEvent [⟨6, 7, "Edit", none, none, 0, none, none, none, none, some 3⟩]
        7 id ⟨"New", some "d", some "l", 88, some "10:00", none, none, some "g"⟩ = none ↔
      ¬ ∃ x ∈ [(⟨6, 7, "Edit", none, none, 0, none, none, none, none, some 3⟩ : Event)],
        x.id = id ∧ x.userId = 7) :=
  update_ignores_deletedAt
    [⟨6, 7, "Edit", none, none, 0, none, none, none, none, some 3⟩] 7
    ⟨"New", some "d", some "l", 88, some "10:00", none, none, some "g"⟩
    ⟨6, 7, "Edit", none, none, 0, none, none, none, none, some 3⟩
    (by simp) (by simp) rfl

/-! ## Calendar sync: OAuth credential handling (calendar/route.ts) -/

/-- The stored Google OAuth account row (`prisma.account`), restricted to
the fields the calendar route reads and writes: `access_token`,
`refresh_token`, and the absolute expiry `expires_at` in epoch seconds. -/
structure Account where
  id : Nat
  access_token : Option String
  refresh_token : Option String
  expires_at : Option Int
deriving Repr, DecidableEq

/-- The provider's token-endpoint reply as the route consumes it: the HTTP
success flag and the `access_token` / `expires_in` fields of the body. -/
structure TokenResponse where
  ok : Bool
  access_token : String
  expires_in : Int
deriving Repr, DecidableEq

/-- `refreshAccessToken` (calendar/route.ts lines 28-69): throw when no
refresh token is stored; on a non-ok endpoint reply throw with the
provider's message; on success persist the new access token and the
absolute expiry `now + expires_in` onto the account row and return the
token. -/
def refreshAccessToken (account : Account) (now : Int) (resp : TokenResponse) :
    Except String (String × Account) :=
  match account.refresh_token with
  | none => .error "No refresh token available"
  | some _ =>
    if resp.ok then
      .ok (resp.access_token,
        { account with
            access_token := some resp.access_token
            expires_at := some (now + resp.expires_in) })
    else
      .error "Failed to refresh token"

/-- The staleness check of `POST /api/calendar` lines 132-138:
`const expiresAt = account.expires_at || 0` followed by
`if (!expiresAt || expiresAt - now < 300)`. -/
def needsRefresh (account : Account) (now : Int) : Bool :=
  let expiresAt := account.expires_at.getD 0
  expiresAt == 0 || decide (expiresAt - now < 300)

/-- The credential phase of `POST /api/calendar` (lines 132-153): refresh
exactly when `needsRefresh`; a failed refresh becomes the 401
"sign in again" outcome and the calendar API is never called; otherwise the
phase yields the access token to use and the (possibly updated) account
row.  The `Bool` records whether the refresh branch ran. -/
inductive TokenPhaseResult where
  | refreshFailed (msg : String)
  | fresh (accessToken : String) (account : Account) (didRefresh : Bool)
deriving Repr, DecidableEq

def ensureFreshToken (account : Account) (now : Int) (resp : TokenResponse) :
    TokenPhaseResult :=
  if needsRefresh account now then
    match refreshAccessToken account now resp with
    | .error msg => .refreshFailed msg
    | .ok (newTok, newAccount) => .fresh newTok newAccount true
  else
    .fresh (account.access_token.getD "") account false

/-! ## C4: the five-minute refresh margin -/

/-- C4: the sync refreshes the credential exactly when the stored expiry is
absent (equivalently stored as `0` after `|| 0`) or less than 300 seconds
away: with a still-fresh credential no refresh happens and the stored token
and account are used as they are; with a stale one and a successful
exchange the new token and the absolute expiry `now + expires_in` are
persisted; with a stale one and a failed exchange the operation ends in
`refreshFailed` (re-authentication) with no retry path.  A credential
expiring in 60 s is stale; one expiring in 3600 s (with a sane positive
expiry) is not. -/
theorem sync_refresh_policy (account : Account) (now : Int) (resp : TokenResponse) :
    (¬(account.expires_at.getD 0 = 0 ∨ account.expires_at.getD 0 - now < 300) →
      ensureFreshToken account now resp
        = .fresh (account.access_token.getD "") account false) ∧
    ((account.expires_at.getD 0 = 0 ∨ account.expires_at.getD 0 - now < 300) →
      (∀ r, account.refresh_token = some r → resp.ok = true →
        ensureFreshToken account now resp
          = .fresh resp.access_token
              { account with
                  access_token := some resp.access_token
                  expires_at := some (now + resp.expires_in) } true) ∧
      (resp.ok = false → account.refresh_token ≠ none →
        ensureFreshToken account now resp
          = .refreshFailed "Failed to refresh token") ∧
      (account.refresh_token = none →
        ensureFreshToken account now resp
          = .refreshFailed "No refresh token available")) ∧
    (account.expires_at = some (now + 60) →
      (account.expires_at.getD 0 = 0 ∨ account.expires_at.getD 0 - now < 300)) ∧
    (account.expires_at = some (now + 3600) → now + 3600 ≠ 0 →
      ¬(account.expires_at.getD 0 = 0 ∨ account.expires_at.getD 0 - now < 300)) := by
  have hcond : needsRefresh account now = true ↔
      (account.expires_at.getD 0 = 0 ∨ account.expires_at.getD 0 - now < 300) := by
    simp [needsRefresh]
  refine ⟨?_, ?_, ?_, ?_⟩
  · intro h
    have : needsRefresh account now = false := by
      rw [← Bool.not_eq_true, hcond]
      exact h
    simp [ensureFreshToken, this]
  · intro h
    have hc : needsRefresh account now = true := hcond.mpr h
    refine ⟨?_, ?_, ?_⟩
    · intro r hr hok
      simp [ensureFreshToken, hc, refreshAccessToken, hr, hok]
    · intro hok hrt
      cases hrt' : account.refresh_token with
      | none => exact absurd hrt' hrt
      | some r => simp [ensureFreshToken, hc, refreshAccessToken, hrt', hok]
    · intro hrt
      simp [ensureFreshToken, hc, refreshAccessToken, hrt]
  · intro h
    rw [h]
    right
    simp
  · intro h hnz
    rw [h]
    push_neg
    constructor
    · simpa using hnz
    · simp

/-- Witness for C4: a credential expiring 60 s from now with a working
refresh endpoint. -/
theorem sync_refresh_policy_witness :
    (¬((some (1060 : Int) : Option Int).getD 0 = 0 ∨
        (some (1060 : Int) : Option Int).getD 0 - 1000 < 300) →
      ensureFreshToken ⟨1, some "tokA", some "r", some 1060⟩ 1000 ⟨true, "tokB", 3600⟩
        = .fresh ((some "tokA").getD "") ⟨1, some "tokA", some "r", some 1060⟩ false) ∧
    (((some (1060 : Int) : Option Int).getD 0 = 0 ∨
        (some (1060 : Int) : Option Int).getD 0 - 1000 < 300) →
      (∀ r, (some "r" : Option String) = some r → true = true →
        ensureFreshToken ⟨1, some "tokA", some "r", some 1060⟩ 1000 ⟨true, "tokB", 3600⟩
          = .fresh "tokB"
              { (⟨1, some "tokA", some "r", some 1060⟩ : Account) with
                  access_token := some "tokB"
                  expires_at := some (1000 + 3600) } true) ∧
      (true = false → (some "r" : Option String) ≠ none →
        ensureFreshToken ⟨1, some "tokA", some "r", some 1060⟩ 1000 ⟨true, "tokB", 3600⟩
          = .refreshFailed "Failed to refresh token") ∧
      ((some "r" : Option String) = none →
        ensureFreshToken ⟨1, some "tokA", some "r", some 1060⟩ 1000 ⟨true, "tokB", 3600⟩
          = .refreshFailed "No refresh token available")) ∧
    ((some (1060 : Int) : Option Int) = some (1000 + 60) →
      ((some (1060 : Int) : Option Int).getD 0 = 0 ∨
        (some (1060 : Int) : Option Int).getD 0 - 1000 < 300)) ∧
    ((some (1060 : Int) : Option Int) = some (1000 + 3600) → (1000 : Int) + 3600 ≠ 0 →
      ¬((some (1060 : Int) : Option Int).getD 0 = 0 ∨
        (some (1060 : Int) : Option Int).getD 0 - 1000 < 300)) :=
  sync_refresh_policy ⟨1, some "tokA", some "r", some 1060⟩ 1000 ⟨true, "tokB", 3600⟩

/-! ## Calendar service payloads (calendar-service.ts, two variants) -/

/-- `CalendarEventInput`: name, optional description/location, the calendar
date (as a day index standing for the `"YYYY-MM-DD"` string) and optional
`"HH:MM"` time. -/
structure CalendarEventInput where
  name : String
  description : Option String
  location : Option String
  date : Nat
  time : Option String
deriving Repr, DecidableEq

/-- Minutes past midnight denoted by an `"HH:MM"` string (the
`${date}T${time}:00` combination of the service). -/
def timeOfDayMinutes (t : String) : Nat :=
  match splitFields ':' t.data with
  | h :: m :: _ => (charsToNat? h).getD 0 * 60 + (charsToNat? m).getD 0
  | _ => 0

/-- The payload `calendar.events.insert` receives: a timed entry
(start/end instants in minutes since the epoch, carrying the caller's time
zone) or an all-day entry (bare start/end dates). -/
inductive CalendarPayload where
  | timed (summary : String) (description location : Option String)
      (startMin endMin : Nat)
  | allDay (summary : String) (description location : Option String)
      (startDate endDate : Nat)
deriving Repr, DecidableEq

/-- Payload construction of `createCalendarEvent` in the calendar-service
variant of `src/unnamed/part_008` (lines 44-127): with a time, a timed
entry starting at date+time and ending one hour later
(`startDate.getTime() + 1 * 60 * 60 * 1000`); without one, an all-day entry
with start = end = the bare date. -/
def createCalendarEventPayload (e : CalendarEventInput) : CalendarPayload :=
  match e.time with
  | some t =>
    let startMin := e.date * 1440 + timeOfDayMinutes t
    .timed e.name e.description e.location startMin (startMin + 60)
  | none => .allDay e.name e.description e.location e.date e.date

/-- Payload construction in the `createCalendarEvent` variant appended to
`src/event-sorter/src/services/ai-service.ts` (lines 179-245), identical
except for the two-hour default duration
(`startDate.getTime() + 2 * 60 * 60 * 1000`). -/
def createCalendarEventPayloadV2 (e : CalendarEventInput) : CalendarPayload :=
  match e.time with
  | some t =>
    let startMin := e.date * 1440 + timeOfDayMinutes t
    .timed e.name e.description e.location startMin (startMin + 120)
  | none => .allDay e.name e.description e.location e.date e.date

/-- `CalendarEventResult`: the external id and view link Google returns. -/
structure CalendarResult where
  id : String
  htmlLink : String
deriving Repr, DecidableEq

/-- Outcomes of `POST /api/calendar`. -/
inductive CalendarPostResult where
  | eventNotFound
  | notConnected
  | refreshFailed (msg : String)
  | success (googleEventId htmlLink : String)
deriving Repr, DecidableEq

/-- Day index of an event's stored midnight timestamp (the route passes
`event.date.toISOString().split("T")[0]` to the service). -/
def eventDay (e : Event) : Nat := e.date / 86400000

/-- The `CalendarEventInput` the route builds from a stored event
(calendar/route.ts lines 156-163). -/
def routePayload (e : Event) : CalendarEventInput :=
  ⟨e.name, e.description, e.location, eventDay e, e.time⟩

/-- `POST /api/calendar` (calendar/route.ts lines 90-205): load the event by
id and owner (404 when absent or foreign; note there is no `deletedAt`
condition in this `where` clause), require a connected Google account with
an access token, run the credential phase, build the payload with
`createCalendarEvent` (the provider's `events.insert` is the external
oracle `create`), and persist the returned external id onto the event. -/
def calendarPost (db : Db) (uid eventId : Nat) (account : Option Account)
    (now : Int) (resp : TokenResponse)
    (create : CalendarPayload → CalendarResult) : CalendarPostResult × Db :=
  match db.find? (fun e => e.id == eventId && e.userId == uid) with
  | none => (.eventNotFound, db)
  | some event =>
    match account with
    | none => (.notConnected, db)
    | some account =>
      if account.access_token.isNone then (.notConnected, db)
      else
        match ensureFreshToken account now resp with
        | .refreshFailed msg => (.refreshFailed msg, db)
        | .fresh _tok _acc _refreshed =>
          let result := create (createCalendarEventPayload (routePayload event))
          (.success result.id result.htmlLink,
           updateById db eventId (fun e => { e with googleEventId := some result.id }))

theorem find?_pred_eq_of_nodup {db : Db} {e : Event} {p : Event → Bool}
    (hn : (db.map Event.id).Nodup) (he : e ∈ db) (hpe : p e = true)
    (hid : ∀ x, p x = true → x.id = e.id) :
    db.find? p = some e := by
  induction db with
  | nil => cases he
  | cons a tl ih =>
    rw [List.map_cons, List.nodup_cons] at hn
    rcases List.mem_cons.mp he with rfl | he'
    · simp [List.find?_cons, hpe]
    · have hpa : p a = false := by
        by_contra h
        have h' : p a = true := by
          simpa using h
        exact hn.1 ((hid a h') ▸ List.mem_map_of_mem Event.id he')
      simp only [List.find?_cons, hpa]
      exact ih hn.2 he'

/-! ## C5: payload shape and external-id persistence -/

/-- C5 counterexample: the two-hour calendar-service variant present in the
source maps the event `{name:"Gig", date:"2025-06-01" (day 20240),
time:"20:00"}` to a timed entry ending two hours after its start — not the
one hour (20:00-21:00 span) the claim states for every sync. -/
theorem calendar_two_hour_variant_counterexample :
    createCalendarEventPayloadV2 ⟨"Gig", none, none, 20240, some "20:00"⟩
      = .timed "Gig" none none (20240 * 1440 + 1200) (20240 * 1440 + 1200 + 120) ∧
    (20240 * 1440 + 1200 + 120 : Nat) ≠ 20240 * 1440 + 1200 + 60 := by
  constructor
  · decide
  · decide

/-- C5 amended: in the calendar-service variant of `src/unnamed/part_008`
(one of the two durations in the source; the other variant uses two hours),
an event with a time yields a timed entry from date+time to one hour later,
an event without a time yields an all-day entry with start = end = the bare
date, and a successful sync persists the returned external id onto the
event, making `googleEventId` non-null. -/
theorem calendar_sync_payload_and_persist
    (db : Db) (uid : Nat) (e : Event) (account : Account) (now : Int)
    (resp : TokenResponse) (create : CalendarPayload → CalendarResult)
    (hn : (db.map Event.id).Nodup) (he : e ∈ db) (hu : e.userId = uid)
    (htok : account.access_token.isSome = true)
    (hfresh : ¬(account.expires_at.getD 0 = 0 ∨ account.expires_at.getD 0 - now < 300)) :
    (∀ t, e.time = some t →
      createCalendarEventPayload (routePayload e)
        = .timed e.name e.description e.location
            (eventDay e * 1440 + timeOfDayMinutes t)
            (eventDay e * 1440 + timeOfDayMinutes t + 60)) ∧
    (e.time = none →
      createCalendarEventPayload (routePayload e)
        = .allDay e.name e.description e.location (eventDay e) (eventDay e)) ∧
    (∃ db', calendarPost db uid e.id (some account) now resp create
        = (.success (create (createCalendarEventPayload (routePayload e))).id
            (create (createCalendarEventPayload (routePayload e))).htmlLink, db') ∧
      ({ e with googleEventId := some (create (createCalendarEventPayload (routePayload e))).id } : Event)
        ∈ db' ∧
      ({ e with googleEventId := some (create (createCalendarEventPayload (routePayload e))).id } : Event).googleEventId
        ≠ none) := by
  subst hu
  refine ⟨?_, ?_, ?_⟩
  · intro t ht
    simp [createCalendarEventPayload, routePayload, ht]
  · intro ht
    simp [createCalendarEventPayload, routePayload, ht]
  · have hfind : db.find? (fun x => x.id == e.id && x.userId == e.userId) = some e := by
      apply find?_pred_eq_of_nodup hn he
      · simp
      · intro x hx
        simpa using (Bool.and_eq_true_iff.mp hx).1
    have hnr : needsRefresh account now = false := by
      rw [← Bool.not_eq_true]
      simpa [needsRefresh] using hfresh
    have hat : account.access_token.isNone = false := by
      simp only [Option.isNone_eq_false_iff]
      exact htok
    set g := create (createCalendarEventPayload (routePayload e)) with hg
    refine ⟨updateById db e.id (fun x => { x with googleEventId := some g.id }), ?_, ?_, ?_⟩
    · simp [calendarPost, hfind, hat, ensureFreshToken, hnr, hg]
    · simpa using mem_updateById_of_mem e.id
        (fun x => { x with googleEventId := some g.id }) he
    · simp

/-- Witness for the amended C5: the `{name:"Gig", day 20240, 20:00}` event
synced with a fresh credential; the oracle returns external id `"gid"`. -/
theorem calendar_sync_payload_and_persist_witness :
    (∀ t, (some "20:00" : Option String) = some t →
      createCalendarEventPayload (routePayload
          ⟨8, 7, "Gig", none, none, 1748736000000, some "20:00", none, none, none, none⟩)
        = .timed "Gig" none none
            (eventDay ⟨8, 7, "Gig", none, none, 1748736000000, some "20:00", none, none,
                none, none⟩ * 1440 + timeOfDayMinutes t)
            (eventDay ⟨8, 7, "Gig", none, none, 1748736000000, some "20:00", none, none,
                none, none⟩ * 1440 + timeOfDayMinutes t + 60)) ∧
    ((some "20:00" : Option String) = none →
      createCalendarEventPayload (routePayload
          ⟨8, 7, "Gig", none, none, 1748736000000, some "20:00", none, none, none, none⟩)
        = .allDay "Gig" none none
            (eventDay ⟨8, 7, "Gig", none, none, 1748736000000, some "20:00", none, none,
                none, none⟩)
            (eventDay ⟨8, 7, "Gig", none, none, 1748736000000, some "20:00", none, none,
                none, none⟩)) ∧
    (∃ db', calendarPost
        [⟨8, 7, "Gig", none, none, 1748736000000, some "20:00", none, none, none, none⟩]
        7 8 (some ⟨1, some "tokA", some "r", some 9999999999⟩) 1000 ⟨true, "tokB", 3600⟩
        (fun _ => ⟨"gid", "glink"⟩)
        = (.success "gid" "glink", db') ∧
      ({ (⟨8, 7, "Gig", none, none, 1748736000000, some "20:00", none, none, none,
          none⟩ : Event) with googleEventId := some "gid" } : Event) ∈ db' ∧
      ({ (⟨8, 7, "Gig", none, none, 1748736000000, some "20:00", none, none, none,
          none⟩ : Event) with googleEventId := some "gid" } : Event).googleEventId
        ≠ none) := by
  have h := calendar_sync_payload_and_persist
    [⟨8, 7, "Gig", none, none, 1748736000000, some "20:00", none, none, none, none⟩]
    7 ⟨8, 7, "Gig", none, none, 1748736000000, some "20:00", none, none, none, none⟩
    ⟨1, some "tokA", some "r", some 9999999999⟩ 1000 ⟨true, "tokB", 3600⟩
    (fun _ => ⟨"gid", "glink"⟩)
    (by simp) (by simp) rfl rfl (by decide)
  exact ⟨fun t ht => h.1 t ht, fun ht => h.2.1 ht, h.2.2⟩

/-! ## Dashboard time filters (page.tsx lines 130-168) -/

/-- JavaScript `Date.getDay()` on a day index counted from the Unix epoch:
1970-01-01 (day 0) was a Thursday, so `(day + 4) % 7` gives 0 = Sunday,
1 = Monday, …, 6 = Saturday. -/
def jsGetDay (day : Nat) : Nat := (day + 4) % 7

/-- The `"week"` branch of `filteredEvents` (page.tsx lines 146-150 and
164-167): `startDate = today`, `endDate = today + (7 - dayOfWeek)` days,
keep events with `startDate <= eventDate && eventDate < endDate`. -/
def weekFilter (today eventDay : Nat) : Bool :=
  let endDate := today + (7 - jsGetDay today)
  decide (today ≤ eventDay) && decide (eventDay < endDate)

/-- The `"nextweek"` branch (page.tsx lines 151-157):
`startDate = today + (7 - dayOfWeek) + 1` (next Monday),
`endDate = startDate + 7`. -/
def nextweekFilter (today eventDay : Nat) : Bool :=
  let start := today + (7 - jsGetDay today) + 1
  decide (start ≤ eventDay) && decide (eventDay < start + 7)

/-- The time-filter stage of `filteredEvents` in the `"week"` mode, over the
fetched active events (dates compared at day granularity; the search stage
is an independent later filter). -/
def filterThisWeek (events : List Event) (today : Nat) : List Event :=
  events.filter (fun e => weekFilter today (eventDay e))

/-- The `"nextweek"` mode of the same filter. -/
def filterNextWeek (events : List Event) (today : Nat) : List Event :=
  events.filter (fun e => nextweekFilter today (eventDay e))

/-! ## C6: the `thisWeek` Sunday boundary -/

/-- C6 (code bug): for every `today`, the day `today + (7 - jsGetDay today)`
is a Sunday — the upcoming Sunday the claim speaks of (the next Sunday when
today is itself a Sunday) — and it is excluded both by the `"week"` filter
(whose `endDate` is exactly that Sunday's midnight, compared strictly) and
by the `"nextweek"` filter (which starts the following Monday).
Concretely, with today = Monday 1970-01-05 (day 4), the active event dated
the upcoming Sunday 1970-01-11 (day 10) is dropped by the week filter and
not picked up by the next-week filter, while the event dated the following
Monday (day 11) lands in `"nextweek"` as the claim says. -/
theorem thisWeek_excludes_upcoming_sunday :
    (∀ today : Nat,
      jsGetDay (today + (7 - jsGetDay today)) = 0 ∧
      weekFilter today (today + (7 - jsGetDay today)) = false ∧
      nextweekFilter today (today + (7 - jsGetDay today)) = false) ∧
    filterThisWeek [⟨10, 7, "Sun", none, none, 864000000, none, none, none, none, none⟩] 4
      = [] ∧
    filterNextWeek [⟨10, 7, "Sun", none, none, 864000000, none, none, none, none, none⟩] 4
      = [] ∧
    filterNextWeek [⟨11, 7, "Mon", none, none, 950400000, none, none, none, none, none⟩] 4
      = [⟨11, 7, "Mon", none, none, 950400000, none, none, none, none, none⟩] ∧
    jsGetDay 4 = 1 ∧ jsGetDay 10 = 0 ∧ jsGetDay 11 = 1 := by
  refine ⟨?_, rfl, rfl, rfl, rfl, rfl, rfl⟩
  intro today
  have hmod : (today + 4) % 7 < 7 := Nat.mod_lt _ (by omega)
  refine ⟨?_, ?_, ?_⟩
  · unfold jsGetDay
    omega
  · unfold weekFilter jsGetDay
    simp
  · unfold nextweekFilter jsGetDay
    simp

/-! ## Extraction response parsing (ai-service.ts lines 111-153)

The provider response is handled as its character list.  `content.trim()`,
`startsWith`, `slice` and the fence stripping are embedded directly;
`JSON.parse` is a platform builtin, modelled below by a fuel-bounded
recursive-descent parser over the same character lists. -/

/-- JavaScript's notion of trimmable whitespace, restricted to the
characters that occur in chat-completion output. -/
def isJsWhitespace (c : Char) : Bool :=
  c = ' ' || c = '\n' || c = '\t' || c = '\r'

/-- Drop leading whitespace (`trimStart`). -/
def trimLeft : List Char → List Char
  | [] => []
  | c :: cs => if isJsWhitespace c then trimLeft cs else c :: cs

/-- JavaScript `content.trim()`: strip whitespace from both ends. -/
def trimChars (l : List Char) : List Char :=
  (trimLeft ((trimLeft l).reverse)).reverse

/-- `cleanContent` computation of `extractEventData` (ai-service.ts lines
118-133): trim; drop a leading ````json` (7 chars) or ```` ` (3 chars);
drop a trailing ```` ` (`slice(0, -3)`); trim again. -/
def cleanContent (content : List Char) : List Char :=
  let c := trimChars content
  let c :=
    if ("```json".data).isPrefixOf c then c.drop 7
    else if ("```".data).isPrefixOf c then c.drop 3
    else c
  let c := if ("```".data).isSuffixOf c then c.take (c.length - 3) else c
  trimChars c

/-- JSON values, for the model of the platform `JSON.parse`. -/
inductive Json where
  | null
  | bool (b : Bool)
  | num (n : Nat)
  | str (s : List Char)
  | arr (xs : List Json)
  | obj (fields : List (List Char × Json))

/-- Skip whitespace between JSON tokens. -/
def skipWs : List Char → List Char
  | [] => []
  | c :: cs => if isJsWhitespace c then skipWs cs else c :: cs

/-- Read a JSON string body up to the closing quote (escape sequences do
not occur in the provider's field values). -/
def parseStringBody : List Char → Option (List Char × List Char)
  | [] => none
  | c :: cs =>
    if c = '"' then some ([], cs)
    else
      match parseStringBody cs with
      | some (s, rest) => some (c :: s, rest)
      | none => none

/-- Read a natural number literal. -/
def parseNatLit (l : List Char) : Option (Nat × List Char) :=
  let digits := l.takeWhile (·.isDigit)
  if digits.isEmpty then none
  else some (digits.foldl (fun n c => n * 10 + (c.toNat - 48)) 0, l.drop digits.length)

mutual

/-- One JSON value (fuel-bounded recursive descent). -/
def parseValue : Nat → List Char → Option (Json × List Char)
  | 0, _ => none
  | fuel + 1, l =>
    match skipWs l with
    | [] => none
    | c :: cs =>
      if c = 'n' then
        match cs with
        | 'u' :: 'l' :: 'l' :: rest => some (.null, rest)
        | _ => none
      else if c = 't' then
        match cs with
        | 'r' :: 'u' :: 'e' :: rest => some (.bool true, rest)
        | _ => none
      else if c = 'f' then
        match cs with
        | 'a' :: 'l' :: 's' :: 'e' :: rest => some (.bool false, rest)
        | _ => none
      else if c = '"' then
        match parseStringBody cs with
        | some (s, rest) => some (.str s, rest)
        | none => none
      else if c = '[' then
        match skipWs cs with
        | ']' :: rest => some (.arr [], rest)
        | _ =>
          match parseElems fuel cs with
          | some (xs, rest) => some (.arr xs, rest)
          | none => none
      else if c = '\x7b' then
        match skipWs cs with
        | '\x7d' :: rest => some (.obj [], rest)
        | _ =>
          match parseMembers fuel cs with
          | some (kvs, rest) => some (.obj kvs, rest)
          | none => none
      else
        match parseNatLit (c :: cs) with
        | some (n, rest) => some (.num n, rest)
        | none => none

/-- Comma-separated array elements up to the closing bracket. -/
def parseElems : Nat → List Char → Option (List Json × List Char)
  | 0, _ => none
  | fuel + 1, l =>
    match parseValue fuel l with
    | none => none
    | some (v, rest) =>
      match skipWs rest with
      | ',' :: rest' =>
        match parseElems fuel rest' with
        | some (vs, rest'') => some (v :: vs, rest'')
        | none => none
      | ']' :: rest' => some ([v], rest')
      | _ => none

/-- Comma-separated `"key": value` members up to the closing brace. -/
def parseMembers : Nat → List Char → Option (List (List Char × Json) × List Char)
  | 0, _ => none
  | fuel + 1, l =>
    match skipWs l with
    | '"' :: cs =>
      match parseStringBody cs with
      | none => none
      | some (k, rest) =>
        match skipWs rest with
        | ':' :: rest' =>
          match parseValue fuel rest' with
          | none => none
          | some (v, rest'') =>
            match skipWs rest'' with
            | ',' :: r3 =>
              match parseMembers fuel r3 with
              | some (kvs, r4) => some ((k, v) :: kvs, r4)
              | none => none
            | '\x7d' :: r3 => some ([(k, v)], r3)
            | _ => none
        | _ => none
    | _ => none

end

/-- The platform `JSON.parse`: one value, then nothing but whitespace. -/
def jsonParse (l : List Char) : Option Json :=
  match parseValue (l.length + 1) l with
  | some (j, rest) => if skipWs rest = [] then some j else none
  | none => none

/-- JavaScript truthiness on a parsed JSON value (`parsed.name || null`
replaces falsy field values by null). -/
def jsFalsy : Json → Bool
  | .null => true
  | .bool b => !b
  | .num n => n == 0
  | .str s => s.isEmpty
  | _ => false

/-- Field lookup on a parsed value (`parsed.name`; `undefined` when the
value is not an object or lacks the key). -/
def getField (j : Json) (key : List Char) : Option Json :=
  match j with
  | .obj fields => (fields.find? (fun kv => kv.1 == key)).map (fun kv => kv.2)
  | _ => none

/-- `parsed.x || null`. -/
def orNull (v : Option Json) : Option Json :=
  match v with
  | none => none
  | some j => if jsFalsy j then none else some j

/-- The normalized draft the adapter returns (`ExtractedEventData`), with
each field as the provider supplied it or null. -/
structure ExtractedEventData where
  name : Option Json
  date : Option Json
  time : Option Json
  location : Option Json
  ticketUrl : Option Json
  description : Option Json

/-- Extraction failures: `ExtractionEmptyError` ("No response from AI") and
`ExtractionParseError` ("Failed to parse AI response as JSON"). -/
inductive ExtractError where
  | empty
  | parseError
deriving Repr, DecidableEq

/-- `extractEventData`'s response handling (ai-service.ts lines 111-153):
missing or empty content is the empty error; otherwise strip fences, parse,
and on parse failure raise the parse error; on success normalize the six
fields with `|| null`. -/
def extractEventData (content : Option (List Char)) :
    Except ExtractError ExtractedEventData :=
  match content with
  | none => .error .empty
  | some c =>
    if c.isEmpty then .error .empty
    else
      match jsonParse (cleanContent c) with
      | none => .error .parseError
      | some parsed =>
        .ok ⟨orNull (getField parsed ("name".data)),
             orNull (getField parsed ("date".data)),
             orNull (getField parsed ("time".data)),
             orNull (getField parsed ("location".data)),
             orNull (getField parsed ("ticketUrl".data)),
             orNull (getField parsed ("description".data))⟩

/-! ### Trim and fence lemmas -/

/-- The first character, if any, is not whitespace. -/
def headNotWs (l : List Char) : Bool :=
  match l with
  | [] => true
  | c :: _ => !isJsWhitespace c

theorem trimLeft_eq_self {l : List Char} (h : headNotWs l = true) : trimLeft l = l := by
  cases l with
  | nil => rfl
  | cons c cs =>
    simp only [headNotWs, Bool.not_eq_true'] at h
    simp [trimLeft, h]

theorem headNotWs_append {l : List Char} (m : List Char) (h : l ≠ []) :
    headNotWs (l ++ m) = headNotWs l := by
  cases l with
  | nil => exact absurd rfl h
  | cons c cs => rfl

theorem trimChars_eq_self {l : List Char} (h1 : headNotWs l = true)
    (h2 : headNotWs l.reverse = true) : trimChars l = l := by
  unfold trimChars
  rw [trimLeft_eq_self h1, trimLeft_eq_self h2, List.reverse_reverse]

theorem cleanContent_fenced (s : List Char) (hs : trimChars s = s) :
    cleanContent ("```json".data ++ s ++ "```".data) = s := by
  have htrim : trimChars ("```json".data ++ s ++ "```".data)
      = "```json".data ++ s ++ "```".data := by
    apply trimChars_eq_self
    · rw [List.append_assoc,
        @headNotWs_append ("```json".data) (s ++ "```".data) (by decide)]
      decide
    · rw [List.reverse_append,
        @headNotWs_append (("```".data).reverse) (("```json".data ++ s).reverse)
          (by decide)]
      decide
  have hpre : ("```json".data).isPrefixOf
      ("```json".data ++ s ++ "```".data) = true := by
    rw [List.append_assoc]
    exact List.isPrefixOf_iff_prefix.mpr (List.prefix_append _ _)
  have hdrop : ("```json".data ++ s ++ "```".data).drop 7 = s ++ "```".data := by
    rw [List.append_assoc]
    have h7 : ("```json".data).length = 7 := rfl
    rw [← h7, List.drop_left]
  have hsuf : ("```".data).isSuffixOf (s ++ "```".data) = true :=
    List.isSuffixOf_iff_suffix.mpr (List.suffix_append _ _)
  have htake : (s ++ "```".data).take ((s ++ "```".data).length - 3) = s := by
    have hlen : (s ++ "```".data).length - 3 = s.length := by
      simp
    rw [hlen, List.take_left]
  unfold cleanContent
  rw [htrim]
  simp only [hpre, if_true, hdrop, hsuf, htake, hs]

theorem cleanContent_plain (s : List Char) (hs : trimChars s = s)
    (hpre : ("```".data).isPrefixOf s = false)
    (hsuf : ("```".data).isSuffixOf s = false) :
    cleanContent s = s := by
  have hpre7 : ("```json".data).isPrefixOf s = false := by
    by_contra h
    have h' : ("```json".data).isPrefixOf s = true := by
      simpa using h
    have hp : ("```".data) <+: s :=
      List.IsPrefix.trans (by decide) (List.isPrefixOf_iff_prefix.mp h')
    have hc : ("```".data).isPrefixOf s = true := List.isPrefixOf_iff_prefix.mpr hp
    rw [hpre] at hc
    cases hc
  unfold cleanContent
  rw [hs]
  simp only [hpre7, hpre, hsuf, if_false, Bool.false_eq_true, hs]

/-! ## C7: fenced responses parse like unwrapped ones -/

/-- C7: a provider response wrapped in a ````json ... ``` ` fence parses to
exactly the same `ExtractedEventData` as the unwrapped equivalent; a
response that is not valid JSON after fence stripping raises
`ExtractionParseError` rather than returning a value; a missing response
raises `ExtractionEmptyError`. -/
theorem fenced_response_parses_identically
    (s : List Char) (h0 : s ≠ []) (hs : trimChars s = s)
    (hpre : ("```".data).isPrefixOf s = false)
    (hsuf : ("```".data).isSuffixOf s = false) :
    extractEventData (some ("```json".data ++ s ++ "```".data))
      = extractEventData (some s) ∧
    (∀ c : List Char, c ≠ [] → jsonParse (cleanContent c) = none →
      extractEventData (some c) = .error .parseError) ∧
    extractEventData none = .error .empty := by
  have hemp : ∀ c : List Char, c ≠ [] → c.isEmpty = false := by
    intro c hc
    cases c with
    | nil => exact absurd rfl hc
    | cons a l => rfl
  refine ⟨?_, ?_, rfl⟩
  · have hcw := cleanContent_fenced s hs
    have hcs := cleanContent_plain s hs hpre hsuf
    have hne : ("```json".data ++ s ++ "```".data).isEmpty = false := rfl
    have hne2 : s.isEmpty = false := hemp s h0
    simp only [extractEventData, hne, hne2, hcw, hcs, Bool.false_eq_true, if_false]
  · intro c hc hparse
    simp only [extractEventData, hemp c hc, hparse, Bool.false_eq_true, if_false]

/-- Witness for C7 at the concrete response `{"name":"Gig"}`. -/
theorem fenced_response_parses_identically_witness :
    extractEventData
        (some ("```json".data ++ "\x7b\"name\":\"Gig\"\x7d".data ++ "```".data))
      = extractEventData (some ("\x7b\"name\":\"Gig\"\x7d".data)) ∧
    (∀ c : List Char, c ≠ [] → jsonParse (cleanContent c) = none →
      extractEventData (some c) = .error .parseError) ∧
    extractEventData none = .error .empty :=
  fenced_response_parses_identically ("\x7b\"name\":\"Gig\"\x7d".data)
    (by decide) (by decide) (by decide) (by decide)

end EventSorter
